import Mathlib

/-!
Shallow embedding of src/marcha_aleatoria.py, a 1D random-walk simulator.

Randomness model: np.random.default_rng() is created fresh inside each call
of marcha, so each invocation consumes its own independent draw.  We model a
draw as a function from step index to Bool: coordinate i is the i-th call to
the generator, and random.choice on the two-element array
[-step_length, step_length] selects index 0 (the negative step) on false and
index 1 (the positive step) on true.  Float arrays hold integer-valued data
here, so final positions are Int and sample moments are Rat.
-/

namespace MarchaAleatoria

/-- One drawn step of marcha: random.choice over the array
[-step_length, step_length], the Bool being the uniformly drawn index. -/
def pasoDe (step_length : Int) (b : Bool) : Int :=
  if b then step_length else -step_length

/-- Running cumulative sums with starting accumulator (helper for np.cumsum). -/
def cumsumFrom (acc : Int) : List Int → List Int
  | [] => []
  | x :: xs => (acc + x) :: cumsumFrom (acc + x) xs

/-- Embedding of np.cumsum on a vector of steps. -/
def cumsum (l : List Int) : List Int := cumsumFrom 0 l

/-- The step vector pasos drawn inside marcha(n_pasos) for a given draw. -/
def pasosDe (n_pasos : Nat) (ω : Nat → Bool) : List Int :=
  (List.range n_pasos).map (fun i => pasoDe 1 (ω i))

/-- Embedding of marcha(n_pasos): draw n_pasos steps of length 1, cumulative
sum, return pos[-1].  Indexing the last element of the empty array raises
IndexError, modelled by getLast? returning none. -/
def marcha (n_pasos : Nat) (ω : Nat → Bool) : Option Int :=
  let step_length : Int := 1
  let pasos := (List.range n_pasos).map (fun i => pasoDe step_length (ω i))
  let pos := cumsum pasos
  pos.getLast?

/-- Embedding of pos_finales(n_pasos, runs): run marcha once per run index
and collect the final positions.  Each iteration of the loop calls marcha,
which creates its own fresh generator, so run i consumes draw coordinate i.
If any marcha call fails the whole loop fails. -/
def pos_finales (n_pasos runs : Nat) (Ω : Nat → Nat → Bool) : Option (List Int) :=
  (List.range runs).mapM (fun i => marcha n_pasos (Ω i))

/-- Two successive invocations of marcha in one process.  Each call executes
np.random.default_rng() to create a fresh process-local generator and touches
no state outside its own locals, so call number k consumes only draw
coordinate k. -/
def dos_marchas (n : Nat) (Ω : Nat → Nat → Bool) : Option Int × Option Int :=
  (marcha n (Ω 0), marcha n (Ω 1))

/-- Sample mean of a float vector: ndarray.mean() is the sum over the
length. -/
def mean (l : List ℚ) : ℚ := l.sum / l.length

/-- Denominator of the normal equations of a degree-1 least-squares fit. -/
def fitDen (xs : List ℚ) : ℚ :=
  (xs.length : ℚ) * (xs.map (fun x => x * x)).sum - xs.sum * xs.sum

/-- Slope returned by np.polyfit(xs, ys, 1), modelled by the closed form of
the ordinary-least-squares degree-1 fit (the normal equations); the lemma
sqResid_fit_le below proves this closed form does minimise the summed
squared residuals, which is the specification of polyfit. -/
def fitSlope (xs ys : List ℚ) : ℚ :=
  ((xs.length : ℚ) * ((xs.zip ys).map (fun p => p.1 * p.2)).sum
      - xs.sum * ys.sum) / fitDen xs

/-- Intercept returned by np.polyfit(xs, ys, 1) (unconstrained, fitted). -/
def fitIntercept (xs ys : List ℚ) : ℚ :=
  (ys.sum - fitSlope xs ys * xs.sum) / (xs.length : ℚ)

/-- Summed squared residuals of the line y = a*x + b on the zipped data. -/
def sqResid (xs ys : List ℚ) (a b : ℚ) : ℚ :=
  ((xs.zip ys).map (fun p => (p.2 - (a * p.1 + b)) ^ 2)).sum

/-- Embedding of N_arr = np.array(valores_N, dtype=float): the caller's step
counts as a float vector. -/
def N_arr (valores_N : List Nat) : List ℚ :=
  valores_N.map (fun (N : Nat) => (N : ℚ))

/-- Embedding of momentos_vs_N(valores_N, runs): for each N in the list (the
loop over valores_N, iteration j consuming its own block of draws) compute
the final positions of runs trials, take the sample mean and the sample mean
of squares, fit m2 against N with np.polyfit degree 1 and return
(m1, m2, slope, D) with D = slope / 2. -/
def momentos_vs_N (valores_N : List Nat) (runs : Nat)
    (Ω : Nat → Nat → Nat → Bool) : Option (List ℚ × List ℚ × ℚ × ℚ) := do
  let finales_por_N ← (List.range valores_N.length).mapM
      (fun j => pos_finales (valores_N.getD j 0) runs (Ω j))
  let m1 := finales_por_N.map (fun f => mean (f.map (fun (x : Int) => (x : ℚ))))
  let m2 := finales_por_N.map (fun f => mean (f.map (fun (x : Int) => (x : ℚ) ^ 2)))
  let slope := fitSlope (N_arr valores_N) m2
  pure (m1, m2, slope, slope / 2)

/-- Embedding of Python min(iterable): the least element of a nonempty
sequence; min() of an empty sequence raises ValueError, modelled by none. -/
def pymin : List ℚ → Option ℚ
  | [] => none
  | x :: xs => some (xs.foldl min x)

/-- Embedding of Python max(iterable), none on the empty sequence. -/
def pymax : List ℚ → Option ℚ
  | [] => none
  | x :: xs => some (xs.foldl max x)

/-- Width of each of the bins equal-width histogram bins that np.histogram
lays over [lo, hi]. -/
def binWidth (lo hi : ℚ) (bins : Nat) : ℚ := (hi - lo) / (bins : ℚ)

/-- Index of the bin receiving data point x: np.histogram puts x in bin
floor((x - lo)/width), except that the rightmost bin is closed, so x = hi
lands in bin bins - 1. -/
def binIndex (lo hi : ℚ) (bins : Nat) (x : ℚ) : Nat :=
  min (Int.toNat ⌊(x - lo) / binWidth lo hi bins⌋) (bins - 1)

/-- Number of data points counted into bin i by np.histogram. -/
def binCount (data : List ℚ) (lo hi : ℚ) (bins : Nat) (i : Nat) : Nat :=
  (data.filter (fun x => binIndex lo hi bins x == i)).length

/-- Normalized height of bin i as plt.hist computes it under density=True:
the count divided by (total count times bin width), so that the heights
integrate to 1 over the binned range. -/
def histDensity (data : List ℚ) (lo hi : ℚ) (bins : Nat) (i : Nat) : ℚ :=
  (binCount data lo hi bins i : ℚ) / ((data.length : ℚ) * binWidth lo hi bins)

/-- Embedding of np.linspace(lo, hi, num) with its default inclusive
endpoint: num evenly spaced points from lo to hi. -/
def linspace (lo hi : ℚ) (num : Nat) : List ℚ :=
  (List.range num).map
    (fun (i : Nat) => lo + (hi - lo) * (i : ℚ) / ((num - 1 : Nat) : ℚ))

/-- Standard deviation used by histograma: sigma = sqrt(n_pasos) times the
step length 1. -/
noncomputable def sigmaDe (n_pasos : Nat) : ℝ := Real.sqrt (n_pasos : ℝ) * 1

/-- Theoretical curve histograma overlays on the histogram, exactly as the
source computes it pointwise. -/
noncomputable def TCL (n_pasos : Nat) (x : ℝ) : ℝ :=
  (1 / (Real.sqrt (2 * Real.pi) * sigmaDe n_pasos))
    * Real.exp (-(0.5 : ℝ) * (x / sigmaDe n_pasos) ^ 2)

/-- Modelled from the spec: the closed-form normal density with mean mu and
standard deviation sigma, to be compared with the curve the code draws. -/
noncomputable def densidadNormal (mu sigma x : ℝ) : ℝ :=
  (1 / (Real.sqrt (2 * Real.pi) * sigma))
    * Real.exp (-((x - mu) ^ 2 / (2 * sigma ^ 2)))

/-- Fallible prelude of histograma(posi_finales, n_pasos): the x grid of the
theoretical curve needs min(posi_finales) and max(posi_finales), which raise
ValueError on an empty argument. -/
def histograma_grid (posi_finales : List ℚ) : Option (List ℚ) := do
  let lo ← pymin posi_finales
  let hi ← pymax posi_finales
  pure (linspace lo hi 500)

/-- The five dispatch outcomes of one iteration of the menu loop in main():
the four actions of the if/elif chain plus the catch-all else branch. -/
inductive MenuAction : Type
  | marchaSola
  | histogramaTCL
  | momentosN
  | salir
  | invalida

/-- Dispatch of main() on the menu selection string, the if/elif chain over
opcion in source order. -/
def dispatch (opcion : String) : MenuAction :=
  if opcion = "1" then MenuAction.marchaSola
  else if opcion = "2" then MenuAction.histogramaTCL
  else if opcion = "3" then MenuAction.momentosN
  else if opcion = "0" then MenuAction.salir
  else MenuAction.invalida

/-- Modelled from the spec: value of a decimal digit character, none on a
non-digit. -/
def digitoVal (c : Char) : Option Nat :=
  if 48 ≤ c.toNat ∧ c.toNat ≤ 57 then some (c.toNat - 48) else none

/-- Modelled from the spec: an unsigned decimal numeral, at least one digit,
read left to right. -/
def pyNat (cs : List Char) : Option Nat :=
  if cs = [] then none
  else cs.foldl (fun acc c => do
      let a ← acc
      let d ← digitoVal c
      pure (a * 10 + d)) (some 0)

/-- Modelled from the spec: the built-in int() on the entered characters: an
optional leading minus sign followed by at least one decimal digit; anything
else (in particular the empty string) raises ValueError, modelled by none. -/
def pyIntChars : List Char → Option Int
  | [] => none
  | c :: cs =>
    if c = '-' then (pyNat cs).map (fun n => -(n : Int))
    else (pyNat (c :: cs)).map (fun n => (n : Int))

/-- Modelled from the spec: int() applied to the entered text. -/
def pyInt (s : String) : Option Int := pyIntChars s.data

/-- Modelled from the spec: str.split(",") on the characters of the entered
list text; splitting the empty string yields one empty piece, as in
Python. -/
def splitComa : List Char → List (List Char)
  | [] => [[]]
  | c :: cs =>
    if c = ',' then [] :: splitComa cs
    else
      match splitComa cs with
      | [] => [[c]]
      | p :: ps => (c :: p) :: ps

/-- Parsing of the comma-separated list of N values in menu option 3:
int(x) for each piece of lista.split(","); a malformed piece raises. -/
def parseLista (s : String) : Option (List Int) :=
  (splitComa s.data).mapM pyIntChars

/-- One execution of menu action 1 out of its fallible pieces: parse N with
int() (ValueError aborts the action), then run marcha; random.choice raises
ValueError on a negative size and pos[-1] raises IndexError on the empty
step vector. -/
def runOpcion1 (entradaN : String) (ω : Nat → Bool) : Except String Int :=
  match pyInt entradaN with
  | none => Except.error "ValueError"
  | some N =>
    if N < 0 then Except.error "ValueError"
    else
      match marcha N.toNat ω with
      | none => Except.error "IndexError"
      | some x => Except.ok x

/-- One execution of menu action 2: parse N and the run count, build the
final positions, then histograma, whose min()/max() raise ValueError on an
empty array; np.empty raises ValueError for a negative run count. -/
def runOpcion2 (entradaN entradaRuns : String) (Ω : Nat → Nat → Bool) :
    Except String (List ℚ) :=
  match pyInt entradaN with
  | none => Except.error "ValueError"
  | some N =>
    match pyInt entradaRuns with
    | none => Except.error "ValueError"
    | some runs =>
      if N < 0 ∨ runs < 0 then Except.error "ValueError"
      else
        match pos_finales N.toNat runs.toNat Ω with
        | none => Except.error "IndexError"
        | some finales =>
          match histograma_grid (finales.map (fun (x : Int) => (x : ℚ))) with
          | none => Except.error "ValueError"
          | some _ => Except.ok (finales.map (fun (x : Int) => (x : ℚ)))

lemma getLast?_cumsumFrom : ∀ (l : List Int) (acc : Int), l ≠ [] →
    (cumsumFrom acc l).getLast? = some (acc + l.sum)
  | [], _, h => absurd rfl h
  | [x], acc, _ => by simp [cumsumFrom]
  | x :: y :: ys, acc, _ => by
    have ih := getLast?_cumsumFrom (y :: ys) (acc + x) (by simp)
    have h1 : cumsumFrom acc (x :: y :: ys)
        = (acc + x) :: cumsumFrom (acc + x) (y :: ys) := rfl
    have h2 : cumsumFrom (acc + x) (y :: ys)
        = (acc + x + y) :: cumsumFrom (acc + x + y) ys := rfl
    rw [h1, h2, List.getLast?_cons_cons, ← h2, ih]
    simp only [List.sum_cons, Option.some.injEq]
    ring

lemma pasosDe_ne_nil {n : Nat} (hn : 1 ≤ n) (ω : Nat → Bool) :
    pasosDe n ω ≠ [] := by
  have : (pasosDe n ω).length = n := by simp [pasosDe]
  intro h
  rw [h] at this
  simp at this
  omega

/-- marcha returns exactly the sum of the drawn step vector. -/
lemma marcha_eq_sum {n : Nat} (hn : 1 ≤ n) (ω : Nat → Bool) :
    marcha n ω = some ((pasosDe n ω).sum) := by
  show (cumsum (pasosDe n ω)).getLast? = some ((pasosDe n ω).sum)
  rw [cumsum, getLast?_cumsumFrom _ _ (pasosDe_ne_nil hn ω)]
  simp

lemma mem_pasosDe {n : Nat} {ω : Nat → Bool} {p : Int}
    (hp : p ∈ pasosDe n ω) : p = -1 ∨ p = 1 := by
  simp only [pasosDe, List.mem_map] at hp
  obtain ⟨i, _, hi⟩ := hp
  cases h : ω i <;> simp [← hi, pasoDe, h]

lemma sum_bounds_parity : ∀ (l : List Int), (∀ p ∈ l, p = -1 ∨ p = 1) →
    -(l.length : Int) ≤ l.sum ∧ l.sum ≤ l.length ∧
      l.sum % 2 = (l.length : Int) % 2 := by
  intro l
  induction l with
  | nil => intro _; simp
  | cons x xs ih =>
    intro h
    have hx := h x (by simp)
    have hxs := ih (fun p hp => h p (by simp [hp]))
    simp only [List.sum_cons, List.length_cons]
    push_cast
    omega

/-- C9: marcha(0) fails: the cumulative-sum array is empty and pos[-1] is out
of bounds, so in the total embedding marcha 0 returns none. -/
theorem marcha_zero_falla (ω : Nat → Bool) : marcha 0 ω = none := rfl

/-- C1: for every n_pasos at least 1, marcha draws a vector of n_pasos steps,
each step 1 or -1, step i determined by the single independent draw
coordinate i, the Bool-to-step map being a bijection onto the two steps (so a
uniform coin yields a uniform step); and it returns only the final cumulative
sum of those steps (a single value, not the path). -/
theorem marcha_devuelve_suma (n : Nat) (ω : Nat → Bool) (hn : 1 ≤ n) :
    marcha n ω = some ((pasosDe n ω).sum) ∧
    (pasosDe n ω).length = n ∧
    (∀ p ∈ pasosDe n ω, p = -1 ∨ p = 1) ∧
    (∀ ω2 : Nat → Bool, (∀ i, i < n → ω i = ω2 i) → pasosDe n ω = pasosDe n ω2) ∧
    (∀ b b2 : Bool, pasoDe 1 b = pasoDe 1 b2 → b = b2) ∧
    (∀ s : Int, s = -1 ∨ s = 1 → ∃ b : Bool, pasoDe 1 b = s) := by
  refine ⟨marcha_eq_sum hn ω, by simp [pasosDe], fun p hp => mem_pasosDe hp,
    ?_, ?_, ?_⟩
  · intro ω2 hi
    simp only [pasosDe, List.map_inj_left, List.mem_range]
    intro i him
    rw [hi i him]
  · intro b b2 hb
    cases b <;> cases b2 <;> simp [pasoDe] at hb ⊢
  · rintro s (rfl | rfl)
    · exact ⟨false, rfl⟩
    · exact ⟨true, rfl⟩

/-- C1 witness at n = 1 with the all-true draw. -/
theorem marcha_devuelve_suma_witness :
    1 ≤ 1 ∧
    (marcha 1 (fun _ => true) = some ((pasosDe 1 (fun _ => true)).sum) ∧
    (pasosDe 1 (fun _ => true)).length = 1 ∧
    (∀ p ∈ pasosDe 1 (fun _ => true), p = -1 ∨ p = 1) ∧
    (∀ ω2 : Nat → Bool, (∀ i, i < 1 → (fun _ => true) i = ω2 i) →
      pasosDe 1 (fun _ => true) = pasosDe 1 ω2) ∧
    (∀ b b2 : Bool, pasoDe 1 b = pasoDe 1 b2 → b = b2) ∧
    (∀ s : Int, s = -1 ∨ s = 1 → ∃ b : Bool, pasoDe 1 b = s)) :=
  ⟨by decide, marcha_devuelve_suma 1 (fun _ => true) (by decide)⟩

/-- C2: for n_pasos at least 1 and any draw, marcha returns an integer in
[-n, n] with the parity of n; for n = 100 it is even, for n = 1 it is -1 or
1. -/
theorem marcha_rango_paridad (n : Nat) (ω : Nat → Bool) (hn : 1 ≤ n) :
    ∃ x : Int, marcha n ω = some x ∧
      -(n : Int) ≤ x ∧ x ≤ (n : Int) ∧ x % 2 = (n : Int) % 2 ∧
      (n = 100 → x % 2 = 0) ∧ (n = 1 → x = -1 ∨ x = 1) := by
  refine ⟨(pasosDe n ω).sum, marcha_eq_sum hn ω, ?_⟩
  have hlen : (pasosDe n ω).length = n := by simp [pasosDe]
  have h := sum_bounds_parity (pasosDe n ω) (fun p hp => mem_pasosDe hp)
  rw [hlen] at h
  refine ⟨h.1, h.2.1, h.2.2, ?_, ?_⟩
  · rintro rfl
    omega
  · rintro rfl
    omega

/-- C2 witness at n = 1 with the all-true draw. -/
theorem marcha_rango_paridad_witness :
    1 ≤ 1 ∧ ∃ x : Int, marcha 1 (fun _ => true) = some x ∧
      -(1 : Int) ≤ x ∧ x ≤ (1 : Int) ∧ x % 2 = (1 : Int) % 2 ∧
      ((1 : Nat) = 100 → x % 2 = 0) ∧ ((1 : Nat) = 1 → x = -1 ∨ x = 1) :=
  ⟨by decide, marcha_rango_paridad 1 (fun _ => true) (by decide)⟩

lemma mapM_option_eq_map {α β : Type} (f : α → Option β) (g : α → β) :
    ∀ l : List α, (∀ a ∈ l, f a = some (g a)) → l.mapM f = some (l.map g) := by
  intro l
  induction l with
  | nil => intro _; rfl
  | cons a l ih =>
    intro h
    rw [List.mapM_cons, h a (by simp), ih (fun b hb => h b (by simp [hb]))]
    rfl

/-- C5: for n_pasos at least 1 and any runs (0 included), pos_finales
succeeds and returns an array of length exactly runs whose i-th element is
the final position of the i-th walk, computed from that trial's own
independent draw coordinate. -/
theorem pos_finales_correcto (n runs : Nat) (Ω : Nat → Nat → Bool)
    (hn : 1 ≤ n) :
    ∃ l : List Int, pos_finales n runs Ω = some l ∧ l.length = runs ∧
      ∀ i : Nat, i < runs → l[i]? = marcha n (Ω i) := by
  refine ⟨(List.range runs).map (fun i => (pasosDe n (Ω i)).sum),
    mapM_option_eq_map _ _ _ (fun i _ => marcha_eq_sum hn (Ω i)), by simp, ?_⟩
  intro i hi
  rw [List.getElem?_map, marcha_eq_sum hn (Ω i), List.getElem?_range hi]
  rfl

/-- C5 witness at n = 1, runs = 2 with the all-true draw. -/
theorem pos_finales_correcto_witness :
    1 ≤ 1 ∧ ∃ l : List Int,
      pos_finales 1 2 (fun _ _ => true) = some l ∧ l.length = 2 ∧
      ∀ i : Nat, i < 2 → l[i]? = marcha 1 ((fun _ _ => true) i) :=
  ⟨by decide, pos_finales_correcto 1 2 (fun _ _ => true) (by decide)⟩

/-- C8: no shared-state leakage between two calls of marcha with the same
n_pasos: the second call's result depends only on the second call's own
draw, never on the first call's draw (and symmetrically for the first). -/
theorem marcha_sin_estado_compartido (n : Nat) (Ω Ω2 : Nat → Nat → Bool)
    (h2 : Ω 1 = Ω2 1) :
    (dos_marchas n Ω).2 = (dos_marchas n Ω2).2 ∧
    (Ω 0 = Ω2 0 → (dos_marchas n Ω).1 = (dos_marchas n Ω2).1) := by
  constructor
  · simp only [dos_marchas, h2]
  · intro h1
    simp only [dos_marchas, h1]

/-- C8 witness at n = 1 with concrete equal draws. -/
theorem marcha_sin_estado_compartido_witness :
    ((fun (_ : Nat) (_ : Nat) => true) 1 = (fun (_ : Nat) (_ : Nat) => true) 1) ∧
    ((dos_marchas 1 (fun _ _ => true)).2 = (dos_marchas 1 (fun _ _ => true)).2 ∧
      ((fun (_ : Nat) (_ : Nat) => true) 0 = (fun (_ : Nat) (_ : Nat) => true) 0 →
        (dos_marchas 1 (fun _ _ => true)).1 = (dos_marchas 1 (fun _ _ => true)).1)) :=
  ⟨rfl, marcha_sin_estado_compartido 1 (fun _ _ => true) (fun _ _ => true) rfl⟩

lemma zip_self_map (l : List ℚ) :
    (l.zip l).map (fun p => p.1 * p.2) = l.map (fun x => x * x) := by
  induction l with
  | nil => rfl
  | cons x xs ih => simp only [List.zip_cons_cons, List.map_cons, ih]

lemma sum_affine : ∀ (xs ys : List ℚ), xs.length = ys.length → ∀ a b : ℚ,
    ((xs.zip ys).map (fun p => p.2 - (a * p.1 + b))).sum
      = ys.sum - a * xs.sum - (xs.length : ℚ) * b
  | [], [], _, a, b => by simp
  | [], y :: ys, h, _, _ => by simp at h
  | x :: xs, [], h, _, _ => by simp at h
  | x :: xs, y :: ys, h, a, b => by
    have ih := sum_affine xs ys (by simpa using h) a b
    simp only [List.zip_cons_cons, List.map_cons, List.sum_cons,
      List.length_cons, ih]
    push_cast
    ring

lemma sum_affine_mul : ∀ (xs ys : List ℚ), xs.length = ys.length → ∀ a b : ℚ,
    ((xs.zip ys).map (fun p => (p.2 - (a * p.1 + b)) * p.1)).sum
      = ((xs.zip ys).map (fun p => p.1 * p.2)).sum
        - a * (xs.map (fun x => x * x)).sum - b * xs.sum
  | [], [], _, a, b => by simp
  | [], y :: ys, h, _, _ => by simp at h
  | x :: xs, [], h, _, _ => by simp at h
  | x :: xs, y :: ys, h, a, b => by
    have ih := sum_affine_mul xs ys (by simpa using h) a b
    simp only [List.zip_cons_cons, List.map_cons, List.sum_cons,
      List.length_cons, ih]
    ring

lemma sqResid_split : ∀ (L : List (ℚ × ℚ)) (c d a b : ℚ),
    (L.map (fun p => (p.2 - (a * p.1 + b)) ^ 2)).sum
      = (L.map (fun p => (p.2 - (c * p.1 + d)) ^ 2)).sum
        + (L.map (fun p => ((c - a) * p.1 + (d - b)) ^ 2)).sum
        + 2 * (c - a) * (L.map (fun p => (p.2 - (c * p.1 + d)) * p.1)).sum
        + 2 * (d - b) * (L.map (fun p => p.2 - (c * p.1 + d))).sum
  | [], _, _, _, _ => by simp
  | p :: L, c, d, a, b => by
    have ih := sqResid_split L c d a b
    simp only [List.map_cons, List.sum_cons, ih]
    ring

lemma sq_sum_nonneg (L : List (ℚ × ℚ)) (f : ℚ × ℚ → ℚ) :
    0 ≤ (L.map (fun p => f p ^ 2)).sum := by
  apply List.sum_nonneg
  intro x hx
  simp only [List.mem_map] at hx
  obtain ⟨p, _, rfl⟩ := hx
  positivity

lemma length_ne_zero_of_fitDen {xs : List ℚ} (hden : fitDen xs ≠ 0) :
    (xs.length : ℚ) ≠ 0 := by
  intro h
  apply hden
  have hx : xs = [] := by
    cases xs with
    | nil => rfl
    | cons x l =>
      exfalso
      have hpos : (0 : ℚ) ≤ (l.length : ℚ) := by positivity
      simp only [List.length_cons] at h
      push_cast at h
      linarith
  rw [hx]
  simp [fitDen]

lemma resid_sum_eq_zero (xs ys : List ℚ) (hlen : xs.length = ys.length)
    (hden : fitDen xs ≠ 0) :
    ((xs.zip ys).map
      (fun p => p.2 - (fitSlope xs ys * p.1 + fitIntercept xs ys))).sum = 0 := by
  have hn := length_ne_zero_of_fitDen hden
  rw [sum_affine xs ys hlen]
  rw [fitIntercept]
  field_simp

lemma residx_sum_eq_zero (xs ys : List ℚ) (hlen : xs.length = ys.length)
    (hden : fitDen xs ≠ 0) :
    ((xs.zip ys).map
      (fun p => (p.2 - (fitSlope xs ys * p.1 + fitIntercept xs ys)) * p.1)).sum
      = 0 := by
  have hn := length_ne_zero_of_fitDen hden
  rw [sum_affine_mul xs ys hlen]
  rw [fitIntercept, fitSlope, fitDen] at *
  field_simp
  ring

/-- The closed-form slope and intercept minimise the summed squared
residuals among all lines: this is the defining property of an ordinary
least-squares degree-1 fit, hence of np.polyfit(xs, ys, 1). -/
lemma sqResid_fit_le (xs ys : List ℚ) (hlen : xs.length = ys.length)
    (hden : fitDen xs ≠ 0) (a b : ℚ) :
    sqResid xs ys (fitSlope xs ys) (fitIntercept xs ys) ≤ sqResid xs ys a b := by
  have hsplit := sqResid_split (xs.zip ys) (fitSlope xs ys) (fitIntercept xs ys) a b
  have h1 := resid_sum_eq_zero xs ys hlen hden
  have h2 := residx_sum_eq_zero xs ys hlen hden
  have h3 := sq_sum_nonneg (xs.zip ys)
    (fun p => (fitSlope xs ys - a) * p.1 + (fitIntercept xs ys - b))
  unfold sqResid
  rw [hsplit, h1, h2]
  simp only [mul_zero, add_zero]
  linarith [h3]

lemma pos_finales_eq {n : Nat} (hn : 1 ≤ n) (runs : Nat)
    (ω : Nat → Nat → Bool) :
    pos_finales n runs ω
      = some ((List.range runs).map (fun i => (pasosDe n (ω i)).sum)) :=
  mapM_option_eq_map _ _ _ (fun i _ => marcha_eq_sum hn (ω i))

lemma N_arr_length (valores_N : List Nat) :
    (N_arr valores_N).length = valores_N.length := by
  simp [N_arr]

theorem momentos_vs_N_correcto (V : List Nat) (runs : Nat)
    (Ω : Nat → Nat → Nat → Bool) (hV : V ≠ []) (hruns : 1 ≤ runs)
    (hN : ∀ N ∈ V, 1 ≤ N) :
    ∃ m1 m2 : List ℚ, ∃ slope D : ℚ,
      momentos_vs_N V runs Ω = some (m1, m2, slope, D) ∧
      m1.length = V.length ∧ m2.length = V.length ∧
      (∀ i : Nat, i < V.length → ∃ f : List Int,
        pos_finales (V.getD i 0) runs (Ω i) = some f ∧ f.length = runs ∧
        m1[i]? = some (mean (f.map (fun (x : Int) => (x : ℚ)))) ∧
        m2[i]? = some (mean (f.map (fun (x : Int) => (x : ℚ) ^ 2)))) ∧
      slope = fitSlope (N_arr V) m2 ∧
      D = slope / 2 ∧
      (fitDen (N_arr V) ≠ 0 → ∀ a b : ℚ,
        sqResid (N_arr V) m2 slope (fitIntercept (N_arr V) m2)
          ≤ sqResid (N_arr V) m2 a b) := by
  set g : Nat → List Int := fun j =>
    (List.range runs).map (fun i => (pasosDe (V.getD j 0) (Ω j i)).sum) with hg
  set F : List (List Int) := (List.range V.length).map g with hF
  have hmem : ∀ j, j < V.length → (1 : Nat) ≤ V.getD j 0 := by
    intro j hj
    rw [List.getD_eq_getElem V 0 hj]
    exact hN _ (List.getElem_mem hj)
  have h_mapM : (List.range V.length).mapM
      (fun j => pos_finales (V.getD j 0) runs (Ω j)) = some F := by
    apply mapM_option_eq_map
    intro j hj
    exact pos_finales_eq (hmem j (List.mem_range.mp hj)) runs (Ω j)
  refine ⟨F.map (fun f => mean (f.map (fun (x : Int) => (x : ℚ)))),
    F.map (fun f => mean (f.map (fun (x : Int) => (x : ℚ) ^ 2))),
    fitSlope (N_arr V) (F.map (fun f => mean (f.map (fun (x : Int) => (x : ℚ) ^ 2)))),
    fitSlope (N_arr V) (F.map (fun f => mean (f.map (fun (x : Int) => (x : ℚ) ^ 2)))) / 2,
    ?_, ?_, ?_, ?_, ?_, ?_, ?_⟩
  · unfold momentos_vs_N
    rw [h_mapM]
    rfl
  · simp [hF]
  · simp [hF]
  · intro i hi
    refine ⟨g i, pos_finales_eq (hmem i hi) runs (Ω i), by simp [hg], ?_, ?_⟩
    · rw [List.getElem?_map, hF, List.getElem?_map, List.getElem?_range hi]
      rfl
    · rw [List.getElem?_map, hF, List.getElem?_map, List.getElem?_range hi]
      rfl
  · rfl
  · rfl
  · intro hden a b
    exact sqResid_fit_le _ _ (by simp [hF, N_arr_length]) hden a b

theorem momentos_vs_N_correcto_witness :
    (([1, 2] : List Nat) ≠ [] ∧ (1 : Nat) ≤ 1 ∧
      ∀ N ∈ ([1, 2] : List Nat), 1 ≤ N) ∧
    (∃ m1 m2 : List ℚ, ∃ slope D : ℚ,
      momentos_vs_N [1, 2] 1 (fun _ _ _ => true) = some (m1, m2, slope, D) ∧
      m1.length = ([1, 2] : List Nat).length ∧
      m2.length = ([1, 2] : List Nat).length ∧
      (∀ i : Nat, i < ([1, 2] : List Nat).length → ∃ f : List Int,
        pos_finales (([1, 2] : List Nat).getD i 0) 1
            ((fun _ _ _ => true : Nat → Nat → Nat → Bool) i) = some f ∧
        f.length = 1 ∧
        m1[i]? = some (mean (f.map (fun (x : Int) => (x : ℚ)))) ∧
        m2[i]? = some (mean (f.map (fun (x : Int) => (x : ℚ) ^ 2)))) ∧
      slope = fitSlope (N_arr [1, 2]) m2 ∧
      D = slope / 2 ∧
      (fitDen (N_arr [1, 2]) ≠ 0 → ∀ a b : ℚ,
        sqResid (N_arr [1, 2]) m2 slope (fitIntercept (N_arr [1, 2]) m2)
          ≤ sqResid (N_arr [1, 2]) m2 a b)) :=
  ⟨⟨by decide, by decide, by decide⟩,
    momentos_vs_N_correcto [1, 2] 1 (fun _ _ _ => true)
      (by decide) (by decide) (by decide)⟩

theorem ajuste_limite_contraejemplo :
    fitSlope [(100 : ℚ), 300] [(100 : ℚ), 300] = 1 ∧
    fitIntercept [(100 : ℚ), 300] [(100 : ℚ), 300] = 0 ∧
    fitSlope [(100 : ℚ), 300] [(100 : ℚ), 300] / 2 = 1 / 2 ∧
    fitSlope [(100 : ℚ), 300] [(100 : ℚ), 300] ≠ 2 ∧
    fitSlope [(100 : ℚ), 300] [(100 : ℚ), 300] / 2 ≠ 1 := by
  norm_num [fitSlope, fitIntercept, fitDen]

theorem ajuste_limite (V : List Nat) (hden : fitDen (N_arr V) ≠ 0) :
    fitSlope (N_arr V) (N_arr V) = 1 ∧
    fitIntercept (N_arr V) (N_arr V) = 0 ∧
    fitSlope (N_arr V) (N_arr V) / 2 = 1 / 2 := by
  have hslope : fitSlope (N_arr V) (N_arr V) = 1 := by
    rw [fitSlope, zip_self_map (N_arr V)]
    exact div_self hden
  refine ⟨hslope, ?_, by rw [hslope]⟩
  rw [fitIntercept, hslope]
  simp

theorem ajuste_limite_witness :
    fitDen (N_arr [100, 300]) ≠ 0 ∧
    (fitSlope (N_arr [100, 300]) (N_arr [100, 300]) = 1 ∧
      fitIntercept (N_arr [100, 300]) (N_arr [100, 300]) = 0 ∧
      fitSlope (N_arr [100, 300]) (N_arr [100, 300]) / 2 = 1 / 2) :=
  ⟨by norm_num [fitDen, N_arr], ajuste_limite [100, 300] (by norm_num [fitDen, N_arr])⟩

lemma sum_filter_eq_length {α : Type} (f : α → Nat) :
    ∀ (l : List α) (b : Nat), (∀ x ∈ l, f x < b) →
      (Finset.range b).sum (fun i => (l.filter (fun x => f x == i)).length)
        = l.length := by
  intro l
  induction l with
  | nil => intro b _; simp
  | cons x xs ih =>
    intro b hb
    have hx : f x < b := hb x (by simp)
    have ihs := ih b (fun y hy => hb y (by simp [hy]))
    have hsplit : ∀ i : Nat,
        ((x :: xs).filter (fun y => f y == i)).length
          = (if f x = i then 1 else 0)
            + (xs.filter (fun y => f y == i)).length := by
      intro i
      by_cases h : f x = i
      · simp [List.filter_cons, h]
        omega
      · simp [List.filter_cons, h]
    simp only [hsplit]
    rw [Finset.sum_add_distrib, ihs]
    have hone : (Finset.range b).sum (fun i => if f x = i then 1 else 0) = 1 := by
      rw [Finset.sum_ite_eq]
      simp [Finset.mem_range.mpr hx]
    rw [hone]
    simp [Nat.add_comm]

lemma binIndex_lt (lo hi : ℚ) {bins : Nat} (hb : 1 ≤ bins) (x : ℚ) :
    binIndex lo hi bins x < bins := by
  unfold binIndex
  have h := Nat.min_le_right (Int.toNat ⌊(x - lo) / binWidth lo hi bins⌋) (bins - 1)
  omega

lemma linspace_getElem (lo hi : ℚ) (num i : Nat) (h : i < num) :
    (linspace lo hi num)[i]?
      = some (lo + (hi - lo) * (i : ℚ) / ((num - 1 : Nat) : ℚ)) := by
  unfold linspace
  rw [List.getElem?_map, List.getElem?_range h]
  rfl

lemma pymin_ne_nil {data : List ℚ} {lo : ℚ} (h : pymin data = some lo) :
    data ≠ [] := by
  intro hnil
  rw [hnil] at h
  simp [pymin] at h

/-- C6: under density=True the histogram heights computed by histograma
integrate to exactly 1 over the binned range [min, max]; the overlaid
theoretical curve TCL equals the closed-form normal density with mean 0 and
standard deviation sqrt(n_pasos); and the curve is evaluated on 500 points
spanning [min, max] of the data (first point min, last point max). -/
theorem histograma_correcto (data : List ℚ) (lo hi : ℚ) (bins n_pasos : Nat)
    (hlo : pymin data = some lo) (hhi : pymax data = some hi)
    (hlt : lo < hi) (hb : 1 ≤ bins) :
    (Finset.range bins).sum
        (fun i => histDensity data lo hi bins i * binWidth lo hi bins) = 1 ∧
    (∀ x : ℝ, TCL n_pasos x = densidadNormal 0 (Real.sqrt (n_pasos : ℝ)) x) ∧
    (linspace lo hi 500).length = 500 ∧
    (linspace lo hi 500)[0]? = some lo ∧
    (linspace lo hi 500)[499]? = some hi := by
  have hdata : data ≠ [] := pymin_ne_nil hlo
  have hn : (data.length : ℚ) ≠ 0 := by
    have : data.length ≠ 0 := by
      intro h
      exact hdata (List.length_eq_zero.mp h)
    exact_mod_cast this
  have hbq : ((bins : ℚ)) ≠ 0 := by
    have : bins ≠ 0 := by omega
    exact_mod_cast this
  have hw : binWidth lo hi bins ≠ 0 := by
    unfold binWidth
    exact div_ne_zero (sub_ne_zero.mpr (ne_of_gt hlt)) hbq
  refine ⟨?_, ?_, ?_, ?_, ?_⟩
  · have hterm : ∀ i : Nat,
        histDensity data lo hi bins i * binWidth lo hi bins
          = (binCount data lo hi bins i : ℚ) / (data.length : ℚ) := by
      intro i
      unfold histDensity
      field_simp
      ring
    simp only [hterm]
    rw [← Finset.sum_div]
    have hc : (Finset.range bins).sum
        (fun i => ((binCount data lo hi bins i : Nat) : ℚ))
          = ((data.length : Nat) : ℚ) := by
      rw [← Nat.cast_sum]
      norm_cast
      exact sum_filter_eq_length (binIndex lo hi bins) data bins
        (fun x _ => binIndex_lt lo hi hb x)
    rw [hc, div_self hn]
  · intro x
    unfold TCL densidadNormal sigmaDe
    rw [mul_one, sub_zero]
    by_cases hs : Real.sqrt ((n_pasos : Nat) : ℝ) = 0
    · rw [hs]
      simp
    · have hexp : -(0.5 : ℝ) * (x / Real.sqrt ((n_pasos : Nat) : ℝ)) ^ 2
          = -(x ^ 2 / (2 * Real.sqrt ((n_pasos : Nat) : ℝ) ^ 2)) := by
        rw [div_pow]
        field_simp
        ring
      rw [hexp]
  · simp [linspace]
  · rw [linspace_getElem lo hi 500 0 (by norm_num)]
    norm_num
  · rw [linspace_getElem lo hi 500 499 (by norm_num)]
    have h499 : ((500 - 1 : Nat) : ℚ) = 499 := by norm_num
    rw [h499]
    congr 1
    ring

/-- C6 witness: the two-point data set of final positions -1 and 1 with the
default 50 bins and n_pasos = 1. -/
theorem histograma_correcto_witness :
    (pymin [(-1 : ℚ), 1] = some (-1) ∧ pymax [(-1 : ℚ), 1] = some 1 ∧
      (-1 : ℚ) < 1 ∧ (1 : Nat) ≤ 50) ∧
    ((Finset.range 50).sum
        (fun i => histDensity [(-1 : ℚ), 1] (-1) 1 50 i * binWidth (-1) 1 50) = 1 ∧
    (∀ x : ℝ, TCL 1 x = densidadNormal 0 (Real.sqrt ((1 : Nat) : ℝ)) x) ∧
    (linspace (-1) 1 500).length = 500 ∧
    (linspace (-1) 1 500)[0]? = some ((-1 : ℚ)) ∧
    (linspace (-1) 1 500)[499]? = some ((1 : ℚ))) :=
  ⟨⟨by simp [pymin, min_def], by simp [pymax, max_def], by norm_num,
      by norm_num⟩,
    histograma_correcto [(-1 : ℚ), 1] (-1) 1 50 1
      (by simp [pymin, min_def]) (by simp [pymax, max_def])
      (by norm_num) (by norm_num)⟩

/-- C7: the menu loop dispatches on exactly the four selections 1, 2, 3 and
0; every other selection string falls to the invalid branch (message and
re-prompt, no action run); and malformed numeric input inside an action is
not caught: int() failing aborts the action (here action 1) with an
unhandled ValueError, and an empty list entry makes the option-3 list parse
fail. -/
theorem menu_dispatch_correcto :
    dispatch "1" = MenuAction.marchaSola ∧
    dispatch "2" = MenuAction.histogramaTCL ∧
    dispatch "3" = MenuAction.momentosN ∧
    dispatch "0" = MenuAction.salir ∧
    (∀ s : String, s ≠ "1" → s ≠ "2" → s ≠ "3" → s ≠ "0" →
      dispatch s = MenuAction.invalida) ∧
    (∀ s : String, ∀ ω : Nat → Bool, pyInt s = none →
      runOpcion1 s ω = Except.error "ValueError") ∧
    parseLista "" = none := by
  refine ⟨rfl, rfl, rfl, rfl, ?_, ?_, ?_⟩
  · intro s h1 h2 h3 h0
    simp [dispatch, h1, h2, h3, h0]
  · intro s ω h
    simp [runOpcion1, h]
  · decide

/-- C7 witness: the unknown selection x and the malformed number abc. -/
theorem menu_dispatch_correcto_witness :
    (("x" : String) ≠ "1" ∧ pyInt "abc" = none) ∧
    dispatch "x" = MenuAction.invalida ∧
    runOpcion1 "abc" (fun _ => true) = Except.error "ValueError" :=
  ⟨⟨by decide, by decide⟩,
    menu_dispatch_correcto.2.2.2.2.1 "x"
      (by decide) (by decide) (by decide) (by decide),
    menu_dispatch_correcto.2.2.2.2.2.1 "abc" (fun _ => true) (by decide)⟩

/-- C10: pos_finales with zero runs succeeds with the empty array (the loop
body never executes), but histograma on an empty array fails at
min()/max(), so menu option 2 with run count 0 aborts with ValueError;
histograma is total on every nonempty array, so its unstated precondition
is exactly that posi_finales is nonempty. -/
theorem histograma_precondicion (n : Nat) (ω : Nat → Nat → Bool) :
    pos_finales n 0 ω = some [] ∧
    histograma_grid [] = none ∧
    (∀ l : List ℚ, l ≠ [] → (histograma_grid l).isSome = true) ∧
    (∀ Ω : Nat → Nat → Bool, runOpcion2 "5" "0" Ω = Except.error "ValueError") := by
  refine ⟨rfl, rfl, ?_, ?_⟩
  · intro l hl
    cases l with
    | nil => exact absurd rfl hl
    | cons x xs => simp [histograma_grid, pymin, pymax]
  · intro Ω
    rfl

/-- C10 witness with a concrete draw and the one-point nonempty array. -/
theorem histograma_precondicion_witness :
    pos_finales 5 0 (fun _ _ => true) = some [] ∧
    (([(-1 : ℚ)] : List ℚ) ≠ [] ∧ (histograma_grid [(-1 : ℚ)]).isSome = true) :=
  ⟨(histograma_precondicion 5 (fun _ _ => true)).1,
    by simp,
    (histograma_precondicion 5 (fun _ _ => true)).2.2.1 [(-1 : ℚ)] (by simp)⟩

end MarchaAleatoria
